import Mathlib

/-!
Verification of the dependency-injection specification engine in
`lib/spec.js`: the `Spec` constructor (descriptor metadata extraction)
and `Spec.prototype.create` (promise-based recursive dependency
resolution with singleton caching).

The JavaScript is shallowly embedded: JS values become the inductive
`JSValue`; property access, truthiness and `typeof` follow JS
semantics; promises become `Outcome` values carrying an explicit
settlement time, with `Promise.all` modelled by `promiseAll`; the
mutable `_instance` field of a `Spec` becomes explicit state threaded
through `specCreate` (the body of `Spec.prototype.create`) and
`applySettle` (the continuation that runs when the created promise
settles).
-/

set_option autoImplicit false

namespace Electrolyte

/-- A JavaScript value, as far as `lib/spec.js` can observe one:
primitives, arrays, plain objects and functions.  Objects and functions
carry their own enumerable properties as an ordered association list
(JS objects have distinct keys; where a proof needs that, it is an
explicit `Nodup` hypothesis). -/
inductive JSValue where
  | undefined : JSValue
  | null : JSValue
  | bool (b : Bool) : JSValue
  | num (n : Int) : JSValue
  | str (s : String) : JSValue
  | arr (elems : List JSValue) : JSValue
  | obj (fields : List (String × JSValue)) : JSValue
  | func (fields : List (String × JSValue)) : JSValue
deriving Repr

/-- JS truthiness (`if (x)`). -/
def jsTruthy : JSValue → Bool
  | .undefined => false
  | .null => false
  | .bool b => b
  | .num n => n != 0
  | .str s => s != ""
  | .arr _ => true
  | .obj _ => true
  | .func _ => true

/-- JS `typeof` operator. -/
def jsTypeof : JSValue → String
  | .undefined => "undefined"
  | .null => "object"
  | .bool _ => "boolean"
  | .num _ => "number"
  | .str _ => "string"
  | .arr _ => "object"
  | .obj _ => "object"
  | .func _ => "function"

/-- First-match lookup in an object's own-property list; `undefined`
when the key is absent. -/
def jsGetOwn : List (String × JSValue) → String → JSValue
  | [], _ => .undefined
  | (k0, v0) :: rest, k => if k0 = k then v0 else jsGetOwn rest k

/-- JS property read `v[k]`.  Throws a `TypeError` on `null` and
`undefined`; yields `undefined` for absent keys elsewhere (primitives
are boxed; `.length` of strings and arrays is modelled since it is the
one built-in the engine could meet). -/
def jsGet : JSValue → String → Except String JSValue
  | .undefined, k => .error ("TypeError: Cannot read property " ++ k ++ " of undefined")
  | .null, k => .error ("TypeError: Cannot read property " ++ k ++ " of null")
  | .bool _, _ => .ok .undefined
  | .num _, _ => .ok .undefined
  | .str s, k => .ok (if k = "length" then .num (Int.ofNat s.length) else .undefined)
  | .arr xs, k => .ok (if k = "length" then .num (Int.ofNat xs.length) else .undefined)
  | .obj fields, k => .ok (jsGetOwn fields k)
  | .func fields, k => .ok (jsGetOwn fields k)

/-- Total property read, used only where the receiver is known to be
object- or function-shaped (inside the key-copying loop). -/
def jsGetD : JSValue → String → JSValue
  | .str s, k => if k = "length" then .num (Int.ofNat s.length) else .undefined
  | .arr xs, k => if k = "length" then .num (Int.ofNat xs.length) else .undefined
  | .obj fields, k => jsGetOwn fields k
  | .func fields, k => jsGetOwn fields k
  | _, _ => .undefined

/-- `Object.keys`: own enumerable keys in insertion order. -/
def jsKeys : JSValue → List String
  | .obj fields => fields.map Prod.fst
  | .func fields => fields.map Prod.fst
  | .arr xs => (List.range xs.length).map toString
  | _ => []

/-- JS `a || b`. -/
def jsOr (a b : JSValue) : JSValue :=
  if jsTruthy a then a else b

/-- JS property assignment on an association list: replace in place if
the key exists, append otherwise. -/
def jsAssocSet : List (String × JSValue) → String → JSValue → List (String × JSValue)
  | [], k, v => [(k, v)]
  | (k0, v0) :: rest, k, v =>
    if k0 = k then (k0, v) :: rest else (k0, v0) :: jsAssocSet rest k v

/-- The record built by the `Spec` constructor: `id`, the three typed
fields, and the `.a` hash of reserved-prefixed metadata. -/
structure SpecRecord where
  id : String
  dependencies : JSValue
  singleton : JSValue
  implements : JSValue
  a : List (String × JSValue)
deriving Repr

/-- Whether a key starts with the reserved marker:
`keys[i].indexOf(the marker) == 0`. -/
def reservedKey (s : String) : Bool :=
  match s.data with
  | [] => false
  | c :: _ => c = '@'

/-- The key-copying loop of the constructor: for each own key carrying
the reserved marker, `a[keys[i]] = mod[keys[i]]`. -/
def annotLoop (mod : JSValue) : List String → List (String × JSValue) → List (String × JSValue)
  | [], acc => acc
  | k :: ks, acc =>
    annotLoop mod ks (if reservedKey k then jsAssocSet acc k (jsGetD mod k) else acc)

/-- The `.a` hash: the loop runs only when
`typeof mod === "object" || typeof mod === "function"`. -/
def buildAnnotMap (mod : JSValue) : List (String × JSValue) :=
  if jsTypeof mod = "object" ∨ jsTypeof mod = "function" then
    annotLoop mod (jsKeys mod) []
  else []

/-- The `Spec` constructor.  Property reads on `null`/`undefined`
descriptors throw, so the result is in `Except`. -/
def specNew (id : String) (mod : JSValue) : Except String SpecRecord :=
  match jsGet mod "@require" with
  | .error e => .error e
  | .ok req =>
    match jsGet mod "@singleton" with
    | .error e => .error e
    | .ok single =>
      match jsGet mod "@implements" with
      | .error e => .error e
      | .ok impl0 =>
        let deps := jsOr req (JSValue.arr [])
        let impl1 := jsOr impl0 (JSValue.arr [])
        let impl := if jsTypeof impl1 = "string" then JSValue.arr [impl1] else impl1
        .ok { id := id, dependencies := deps, singleton := single, implements := impl,
              a := buildAnnotMap mod }

/-! ## The promise model -/

/-- The fate of one promise: never settles, or settles at an abstract
time with a value or a rejection reason. -/
inductive Outcome (α : Type) where
  | pending : Outcome α
  | resolved (t : Nat) (v : α) : Outcome α
  | rejected (t : Nat) (reason : JSValue) : Outcome α
deriving Repr

/-- The earliest rejection among a list of dependency outcomes (ties
broken towards the earlier position, matching attachment order of the
continuations `Promise.all` installs). -/
def firstRejection : List (Outcome JSValue) → Option (Nat × JSValue)
  | [] => none
  | .rejected t r :: rest =>
    match firstRejection rest with
    | some (t2, r2) => if t2 < t then some (t2, r2) else some (t, r)
    | none => some (t, r)
  | _ :: rest => firstRejection rest

/-- Whether every outcome in the list resolved. -/
def allResolved (outs : List (Outcome JSValue)) : Bool :=
  outs.all fun o => match o with | .resolved _ _ => true | _ => false

/-- The resolved values in list (= declared) order. -/
def resolvedValues (outs : List (Outcome JSValue)) : List JSValue :=
  outs.filterMap fun o => match o with | .resolved _ v => some v | _ => none

/-- The time the last dependency resolved. -/
def maxResolveTime (outs : List (Outcome JSValue)) : Nat :=
  outs.foldl (fun m o => match o with | .resolved t _ => max m t | _ => m) 0

/-- `Promise.all`: resolves with the values in input order once every
input resolved; rejects with the earliest rejection's reason as soon as
it occurs, without waiting for the remaining inputs. -/
def promiseAll (outs : List (Outcome JSValue)) : Outcome (List JSValue) :=
  match firstRejection outs with
  | some (t, r) => .rejected t r
  | none =>
    if allResolved outs then .resolved (maxResolveTime outs) (resolvedValues outs)
    else .pending

/-- A factory: `instantiate` applied to the resolved dependency values,
returning the instance or throwing. -/
def Factory : Type := List JSValue → Except JSValue JSValue

/-- The base `Spec.prototype.instantiate`, which must be overridden. -/
def abstractInstantiate : Factory :=
  fun _ => .error (JSValue.str "Spec#instantiate must be overridden by subclass")

/-- Outcome of the chain `Promise.all(promises).then(args => instantiate(...args))`. -/
def chainOutcome (all : Outcome (List JSValue)) (inst : Factory) : Outcome JSValue :=
  match all with
  | .pending => .pending
  | .rejected t r => .rejected t r
  | .resolved t vs =>
    match inst vs with
    | .ok v => .resolved t v
    | .error e => .rejected t e

/-- What the `_instance` field can hold once set: the in-flight promise
(identified by an allocation id) or, after successful settlement of a
singleton, the raw instance value. -/
inductive CachedVal where
  | prom (pid : Nat) : CachedVal
  | val (v : JSValue) : CachedVal
deriving Repr

/-- Truthiness of `this._instance`: a promise object is always truthy;
a cached raw instance is as truthy as the value itself. -/
def cachedTruthy : CachedVal → Bool
  | .prom _ => true
  | .val v => jsTruthy v

/-- What one call to `create` returns: `this._instance` verbatim on the
fast path, or a freshly allocated promise. -/
inductive CreateRet where
  | cached (c : CachedVal) : CreateRet
  | newPromise (pid : Nat) : CreateRet
deriving Repr

/-- The promise identity of a returned value, when the return is a
promise at all (a cached raw instance is not a future). -/
def retPid : CreateRet → Option Nat
  | .cached (.prom pid) => some pid
  | .cached (.val _) => none
  | .newPromise pid => some pid

/-- Whether `create` handed its caller a future. -/
def isFuture (r : CreateRet) : Bool :=
  (retPid r).isSome

/-- Everything observable about one call to `create`: the return value,
the `_instance` field right after the call returns, which dependency
ids were requested from the container, the outcome of the freshly built
promise chain (`none` on the fast path), whether `instantiate` ran in
that chain and with which positional arguments, and whether the
`create` event was emitted. -/
structure CreateResult where
  ret : CreateRet
  newInst : Option CachedVal
  requested : List String
  chain : Option (Outcome JSValue)
  factoryInvoked : Bool
  factoryArgs : Option (List JSValue)
  emitted : Bool
deriving Repr

/-- The slow path of `create`: issue `container.create` for each
dependency in declared order, join with `Promise.all`, chain
`instantiate`, and cache the in-flight promise when the spec is a
singleton. -/
def specCreateRun (deps : List String) (sing : JSValue)
    (container : String → Outcome JSValue) (inst : Factory)
    (st : Option CachedVal) (fresh : Nat) : CreateResult :=
  let outs := deps.map container
  let all := promiseAll outs
  let ch := chainOutcome all inst
  { ret := .newPromise fresh,
    newInst := if jsTruthy sing then some (.prom fresh) else st,
    requested := deps,
    chain := some ch,
    factoryInvoked := match all with | .resolved _ _ => true | _ => false,
    factoryArgs := match all with | .resolved _ vs => some vs | _ => none,
    emitted := match ch with | .resolved _ _ => true | _ => false }

/-- `Spec.prototype.create`: return `this._instance` immediately when it
is set and truthy; otherwise run the resolution chain.  `container` is
the container's response to `create(depId, this)` for this call;
`fresh` is the identity of the promise the chain would allocate. -/
def specCreate (deps : List String) (sing : JSValue)
    (container : String → Outcome JSValue) (inst : Factory)
    (st : Option CachedVal) (fresh : Nat) : CreateResult :=
  match st with
  | some c =>
    if cachedTruthy c then
      { ret := .cached c, newInst := some c, requested := [], chain := none,
        factoryInvoked := false, factoryArgs := none, emitted := false }
    else specCreateRun deps sing container inst (some c) fresh
  | none => specCreateRun deps sing container inst none fresh

/-- The continuation inside `.then`: once the chain settles
successfully, a singleton spec overwrites `_instance` with the raw
instance; a rejection (or a still-pending chain) leaves `_instance`
untouched. -/
def applySettle (sing : JSValue) (ch : Outcome JSValue) (st : Option CachedVal) :
    Option CachedVal :=
  match ch with
  | .resolved _ i => if jsTruthy sing then some (.val i) else st
  | _ => st

end Electrolyte

namespace Electrolyte

/-! ## Helper lemmas about the promise combinators -/

theorem firstRejection_isSome_of_mem {outs : List (Outcome JSValue)} {t : Nat}
    {r : JSValue} (h : Outcome.rejected t r ∈ outs) :
    (firstRejection outs).isSome = true := by
  induction outs with
  | nil => simp at h
  | cons o rest ih =>
    cases o with
    | rejected t0 r0 =>
      show (match firstRejection rest with
            | some (t2, r2) => if t2 < t0 then some (t2, r2) else some (t0, r0)
            | none => some (t0, r0)).isSome = true
      cases hfr : firstRejection rest with
      | none => simp
      | some p =>
        obtain ⟨t2, r2⟩ := p
        by_cases h2 : t2 < t0 <;> simp [h2]
    | pending =>
      have h2 : Outcome.rejected t r ∈ rest := by
        cases h with
        | tail _ h3 => exact h3
      simpa [firstRejection] using ih h2
    | resolved t0 v0 =>
      have h2 : Outcome.rejected t r ∈ rest := by
        cases h with
        | tail _ h3 => exact h3
      simpa [firstRejection] using ih h2

theorem firstRejection_mem {outs : List (Outcome JSValue)} {t : Nat} {r : JSValue}
    (h : firstRejection outs = some (t, r)) : Outcome.rejected t r ∈ outs := by
  induction outs with
  | nil => simp [firstRejection] at h
  | cons o rest ih =>
    cases o with
    | rejected t0 r0 =>
      have h4 : (match firstRejection rest with
            | some (t2, r2) => if t2 < t0 then some (t2, r2) else some (t0, r0)
            | none => some (t0, r0)) = some (t, r) := h
      cases hfr : firstRejection rest with
      | none =>
        rw [hfr] at h4
        simp at h4
        simp [h4.1, h4.2]
      | some p =>
        obtain ⟨t2, r2⟩ := p
        rw [hfr] at h4
        by_cases h2 : t2 < t0
        · simp [h2] at h4
          exact List.mem_cons_of_mem _ (ih (by rw [hfr, h4.1, h4.2]))
        · simp [h2] at h4
          simp [h4.1, h4.2]
    | pending =>
      simp [firstRejection] at h
      exact List.mem_cons_of_mem _ (ih h)
    | resolved t0 v0 =>
      simp [firstRejection] at h
      exact List.mem_cons_of_mem _ (ih h)

theorem firstRejection_min {outs : List (Outcome JSValue)} :
    ∀ t r, firstRejection outs = some (t, r) →
      ∀ t2 r2, Outcome.rejected t2 r2 ∈ outs → t ≤ t2 := by
  induction outs with
  | nil => intro t r h; simp [firstRejection] at h
  | cons o rest ih =>
    intro t r h t2 r2 hmem
    cases o with
    | rejected t0 r0 =>
      have h4 : (match firstRejection rest with
            | some (t3, r3) => if t3 < t0 then some (t3, r3) else some (t0, r0)
            | none => some (t0, r0)) = some (t, r) := h
      cases hfr : firstRejection rest with
      | none =>
        rw [hfr] at h4
        simp at h4
        cases hmem with
        | head => omega
        | tail _ h5 =>
          exact absurd (firstRejection_isSome_of_mem h5) (by simp [hfr])
      | some p =>
        obtain ⟨t3, r3⟩ := p
        rw [hfr] at h4
        by_cases h2 : t3 < t0
        · simp [h2] at h4
          cases hmem with
          | head => omega
          | tail _ h5 =>
            have := ih t3 r3 hfr t2 r2 h5
            omega
        · simp [h2] at h4
          cases hmem with
          | head => omega
          | tail _ h5 =>
            have := ih t3 r3 hfr t2 r2 h5
            omega
    | pending =>
      simp [firstRejection] at h
      cases hmem with
      | tail _ h5 => exact ih t r h t2 r2 h5
    | resolved t0 v0 =>
      simp [firstRejection] at h
      cases hmem with
      | tail _ h5 => exact ih t r h t2 r2 h5

theorem firstRejection_eq_none_of_allResolved {outs : List (Outcome JSValue)}
    (h : allResolved outs = true) : firstRejection outs = none := by
  induction outs with
  | nil => rfl
  | cons o rest ih =>
    cases o with
    | rejected t0 r0 => simp [allResolved] at h
    | pending => simp [allResolved] at h
    | resolved t0 v0 =>
      simp [allResolved] at h
      simpa [firstRejection] using ih (by simpa [allResolved] using h)

theorem promiseAll_of_allResolved {outs : List (Outcome JSValue)}
    (h : allResolved outs = true) :
    promiseAll outs = Outcome.resolved (maxResolveTime outs) (resolvedValues outs) := by
  simp [promiseAll, firstRejection_eq_none_of_allResolved h, h]

theorem allResolved_zipWith (ts : List Nat) (vs : List JSValue) :
    allResolved (List.zipWith (fun t v => Outcome.resolved t v) ts vs) = true := by
  induction ts generalizing vs with
  | nil => rfl
  | cons t ts ih =>
    cases vs with
    | nil => rfl
    | cons v vs => simpa [allResolved, List.zipWith] using ih vs

theorem resolvedValues_zipWith (ts : List Nat) (vs : List JSValue)
    (h : ts.length = vs.length) :
    resolvedValues (List.zipWith (fun t v => Outcome.resolved t v) ts vs) = vs := by
  induction ts generalizing vs with
  | nil =>
    cases vs with
    | nil => rfl
    | cons v vs => simp at h
  | cons t ts ih =>
    cases vs with
    | nil => simp at h
    | cons v vs =>
      simp [resolvedValues, List.zipWith] at *
      exact ih vs h

/-! ## Claim theorems: the resolution algorithm -/

/-- C1: for a singleton Specification (truthy singleton flag), the first
`create` call caches the freshly allocated promise in `_instance`; any
call issued while that promise is still pending returns the
reference-identical promise (same allocation id), issues no dependency
requests, never reaches the factory, and leaves the state unchanged;
and once the promise settles to a truthy instance, later calls still
never reach the factory, so `instantiate` runs at most once — only
inside the single chain built by the first call — for the entire cached
lifetime. -/
theorem singleton_create_coalesces
    (deps : List String) (sing : JSValue)
    (c1 c2 c3 : String → Outcome JSValue) (inst : Factory)
    (fresh f2 f3 t : Nat) (i : JSValue)
    (hs : jsTruthy sing = true) (hi : jsTruthy i = true) :
    (specCreate deps sing c1 inst none fresh).ret = CreateRet.newPromise fresh ∧
    (specCreate deps sing c1 inst none fresh).newInst = some (CachedVal.prom fresh) ∧
    (specCreate deps sing c2 inst (some (CachedVal.prom fresh)) f2).ret =
      CreateRet.cached (CachedVal.prom fresh) ∧
    retPid (specCreate deps sing c2 inst (some (CachedVal.prom fresh)) f2).ret =
      retPid (specCreate deps sing c1 inst none fresh).ret ∧
    (specCreate deps sing c2 inst (some (CachedVal.prom fresh)) f2).factoryInvoked = false ∧
    (specCreate deps sing c2 inst (some (CachedVal.prom fresh)) f2).requested = [] ∧
    (specCreate deps sing c2 inst (some (CachedVal.prom fresh)) f2).newInst =
      some (CachedVal.prom fresh) ∧
    (specCreate deps sing c3 inst
      (applySettle sing (Outcome.resolved t i) (some (CachedVal.prom fresh))) f3).factoryInvoked
      = false ∧
    (specCreate deps sing c3 inst
      (applySettle sing (Outcome.resolved t i) (some (CachedVal.prom fresh))) f3).requested
      = [] := by
  simp [specCreate, specCreateRun, cachedTruthy, retPid, applySettle, hs, hi]

/-- Witness for C1 at a concrete singleton spec. -/
theorem singleton_create_coalesces_witness :
    jsTruthy (JSValue.bool true) = true ∧ jsTruthy (JSValue.str "obj") = true ∧
    (specCreate ["d"] (JSValue.bool true) (fun _ => Outcome.pending) abstractInstantiate
      (some (CachedVal.prom 0)) 1).ret = CreateRet.cached (CachedVal.prom 0) :=
  ⟨rfl, rfl,
    (singleton_create_coalesces ["d"] (JSValue.bool true) (fun _ => Outcome.pending)
      (fun _ => Outcome.pending) (fun _ => Outcome.pending) abstractInstantiate
      0 1 2 3 (JSValue.str "obj") rfl rfl).2.2.1⟩

/-- C2: if any dependency future rejects, the created promise chain
rejects with the earliest such rejection — the identical reason of a
rejected dependency, at a time no later than any rejecting dependency
(so no waiting on the remaining futures) — and `instantiate` is never
invoked, receiving no arguments. -/
theorem create_failfast_on_dep_rejection
    (deps : List String) (sing : JSValue) (container : String → Outcome JSValue)
    (inst : Factory) (fresh t : Nat) (r : JSValue)
    (hrej : Outcome.rejected t r ∈ deps.map container) :
    ∃ t2 r2, Outcome.rejected t2 r2 ∈ deps.map container ∧ t2 ≤ t ∧
      (∀ t3 r3, Outcome.rejected t3 r3 ∈ deps.map container → t2 ≤ t3) ∧
      (specCreate deps sing container inst none fresh).chain =
        some (Outcome.rejected t2 r2) ∧
      (specCreate deps sing container inst none fresh).factoryInvoked = false ∧
      (specCreate deps sing container inst none fresh).factoryArgs = none := by
  have hsome := firstRejection_isSome_of_mem hrej
  cases hfr : firstRejection (deps.map container) with
  | none => rw [hfr] at hsome; simp at hsome
  | some p =>
    obtain ⟨t2, r2⟩ := p
    refine ⟨t2, r2, firstRejection_mem hfr, firstRejection_min t2 r2 hfr t r hrej,
      fun t3 r3 h3 => firstRejection_min t2 r2 hfr t3 r3 h3, ?_, ?_, ?_⟩ <;>
      simp [specCreate, specCreateRun, promiseAll, chainOutcome, hfr]

/-- The always-rejecting container used as the C2 witness. -/
def rejectingContainer : String → Outcome JSValue :=
  fun _ => Outcome.rejected 1 (JSValue.str "boom")

/-- Witness for C2: a single dependency that rejects. -/
theorem create_failfast_witness :
    Outcome.rejected 1 (JSValue.str "boom") ∈ (["a"].map rejectingContainer) ∧
    (∃ t2 r2, Outcome.rejected t2 r2 ∈ (["a"].map rejectingContainer) ∧ t2 ≤ 1 ∧
      (∀ t3 r3, Outcome.rejected t3 r3 ∈ (["a"].map rejectingContainer) → t2 ≤ t3) ∧
      (specCreate ["a"] JSValue.undefined rejectingContainer
        abstractInstantiate none 0).chain = some (Outcome.rejected t2 r2) ∧
      (specCreate ["a"] JSValue.undefined rejectingContainer
        abstractInstantiate none 0).factoryInvoked = false ∧
      (specCreate ["a"] JSValue.undefined rejectingContainer
        abstractInstantiate none 0).factoryArgs = none) :=
  ⟨List.mem_singleton.mpr rfl,
    create_failfast_on_dep_rejection ["a"] JSValue.undefined
      rejectingContainer abstractInstantiate 0 1
      (JSValue.str "boom") (List.mem_singleton.mpr rfl)⟩

/-- C3: when every dependency future resolves — at arbitrary,
unordered settlement times `ts` — the factory is invoked, and its
positional arguments are exactly the resolved values `vs` in declared
dependency order. -/
theorem factory_receives_declared_order
    (deps : List String) (sing : JSValue) (container : String → Outcome JSValue)
    (inst : Factory) (fresh : Nat) (ts : List Nat) (vs : List JSValue)
    (hlen : ts.length = vs.length)
    (hmap : deps.map container = List.zipWith (fun t v => Outcome.resolved t v) ts vs) :
    (specCreate deps sing container inst none fresh).factoryInvoked = true ∧
    (specCreate deps sing container inst none fresh).factoryArgs = some vs := by
  have hall : allResolved (deps.map container) = true := by
    rw [hmap]; exact allResolved_zipWith ts vs
  have hpa := promiseAll_of_allResolved hall
  have hvals : resolvedValues (deps.map container) = vs := by
    rw [hmap]; exact resolvedValues_zipWith ts vs hlen
  constructor <;> simp [specCreate, specCreateRun, hpa, hvals]

/-- Witness for C3: dependencies `[A, B]` where B settles (time 1)
before A (time 5); the factory still receives `(va, vb)`. -/
theorem factory_receives_declared_order_witness :
    ([5, 1] : List Nat).length = [JSValue.str "va", JSValue.str "vb"].length ∧
    (["A", "B"].map (fun s =>
        if s = "A" then Outcome.resolved 5 (JSValue.str "va")
        else Outcome.resolved 1 (JSValue.str "vb")) =
      List.zipWith (fun t v => Outcome.resolved t v) [5, 1]
        [JSValue.str "va", JSValue.str "vb"]) ∧
    (specCreate ["A", "B"] JSValue.undefined
      (fun s => if s = "A" then Outcome.resolved 5 (JSValue.str "va")
        else Outcome.resolved 1 (JSValue.str "vb"))
      abstractInstantiate none 0).factoryArgs =
        some [JSValue.str "va", JSValue.str "vb"] :=
  ⟨rfl, by simp,
    (factory_receives_declared_order ["A", "B"] JSValue.undefined
      (fun s => if s = "A" then Outcome.resolved 5 (JSValue.str "va")
        else Outcome.resolved 1 (JSValue.str "vb"))
      abstractInstantiate 0 [5, 1] [JSValue.str "va", JSValue.str "vb"]
      rfl (by simp)).2⟩

/-- C4: for a singleton Specification whose first `create` chain
rejects (because a dependency rejected), settlement leaves `_instance`
holding the original — now rejected — promise, since only a successful
resolution overwrites it; the promise object is truthy, so a second
`create` returns that same still-rejected promise by reference, issues
no dependency requests, builds no new chain, and never reaches the
factory: the Specification is permanently poisoned. -/
theorem singleton_rejection_poisons
    (deps : List String) (sing : JSValue)
    (c1 c2 : String → Outcome JSValue) (inst : Factory)
    (fresh f2 t : Nat) (r : JSValue)
    (hs : jsTruthy sing = true)
    (hrej : Outcome.rejected t r ∈ deps.map c1) :
    (∃ t2 r2, (specCreate deps sing c1 inst none fresh).chain =
        some (Outcome.rejected t2 r2)) ∧
    applySettle sing ((specCreate deps sing c1 inst none fresh).chain.getD Outcome.pending)
        (specCreate deps sing c1 inst none fresh).newInst = some (CachedVal.prom fresh) ∧
    (specCreate deps sing c2 inst (some (CachedVal.prom fresh)) f2).ret =
      CreateRet.cached (CachedVal.prom fresh) ∧
    (specCreate deps sing c2 inst (some (CachedVal.prom fresh)) f2).requested = [] ∧
    (specCreate deps sing c2 inst (some (CachedVal.prom fresh)) f2).chain = none ∧
    (specCreate deps sing c2 inst (some (CachedVal.prom fresh)) f2).factoryInvoked
      = false := by
  have hsome := firstRejection_isSome_of_mem hrej
  cases hfr : firstRejection (deps.map c1) with
  | none => rw [hfr] at hsome; simp at hsome
  | some p =>
    obtain ⟨t2, r2⟩ := p
    refine ⟨⟨t2, r2, ?_⟩, ?_, ?_, ?_, ?_, ?_⟩ <;>
      simp [specCreate, specCreateRun, promiseAll, chainOutcome, applySettle,
        cachedTruthy, hfr, hs]

/-- Witness for C4: a truthy singleton flag and one rejecting dependency. -/
theorem singleton_rejection_poisons_witness :
    jsTruthy (JSValue.bool true) = true ∧
    Outcome.rejected 1 (JSValue.str "boom") ∈ (["a"].map rejectingContainer) ∧
    (specCreate ["a"] (JSValue.bool true) rejectingContainer abstractInstantiate
      (some (CachedVal.prom 0)) 1).ret = CreateRet.cached (CachedVal.prom 0) :=
  ⟨rfl, List.mem_singleton.mpr rfl,
    (singleton_rejection_poisons ["a"] (JSValue.bool true) rejectingContainer
      rejectingContainer abstractInstantiate 0 1 1 (JSValue.str "boom") rfl
      (List.mem_singleton.mpr rfl)).2.2.1⟩

/-- C9: a non-singleton Specification (falsy singleton flag) never
populates `_instance`: neither the call itself nor the settlement
continuation writes it.  Starting from the unset state, each of two
calls requests every declared dependency from the container and, when
its own dependency futures all resolve, invokes the factory with its
own independently resolved values. -/
theorem nonsingleton_stateless_and_independent
    (deps : List String) (sing : JSValue)
    (c1 c2 : String → Outcome JSValue) (inst : Factory) (fresh f2 : Nat)
    (hs : jsTruthy sing = false) :
    (specCreate deps sing c1 inst none fresh).newInst = none ∧
    applySettle sing ((specCreate deps sing c1 inst none fresh).chain.getD Outcome.pending)
      (specCreate deps sing c1 inst none fresh).newInst = none ∧
    (specCreate deps sing c1 inst none fresh).requested = deps ∧
    (specCreate deps sing c2 inst none f2).requested = deps ∧
    (allResolved (deps.map c1) = true →
      (specCreate deps sing c1 inst none fresh).factoryInvoked = true ∧
      (specCreate deps sing c1 inst none fresh).factoryArgs =
        some (resolvedValues (deps.map c1))) ∧
    (allResolved (deps.map c2) = true →
      (specCreate deps sing c2 inst none f2).factoryInvoked = true ∧
      (specCreate deps sing c2 inst none f2).factoryArgs =
        some (resolvedValues (deps.map c2))) := by
  refine ⟨?_, ?_, ?_, ?_, fun h1 => ?_, fun h2 => ?_⟩
  · simp [specCreate, specCreateRun, hs]
  · cases hch : chainOutcome (promiseAll (deps.map c1)) inst <;>
      simp [specCreate, specCreateRun, applySettle, hs, hch]
  · simp [specCreate, specCreateRun]
  · simp [specCreate, specCreateRun]
  · constructor <;> simp [specCreate, specCreateRun, promiseAll_of_allResolved h1]
  · constructor <;> simp [specCreate, specCreateRun, promiseAll_of_allResolved h2]

/-- Witness for C9: a non-singleton spec (`undefined` flag, as when the
reserved singleton key is absent) resolved twice against two containers
delivering different values. -/
theorem nonsingleton_independent_witness :
    jsTruthy JSValue.undefined = false ∧
    allResolved (["a"].map (fun _ => Outcome.resolved 0 (JSValue.num 1))) = true ∧
    (specCreate ["a"] JSValue.undefined (fun _ => Outcome.resolved 0 (JSValue.num 1))
      abstractInstantiate none 0).newInst = none ∧
    (specCreate ["a"] JSValue.undefined (fun _ => Outcome.resolved 0 (JSValue.num 1))
      abstractInstantiate none 0).factoryArgs = some [JSValue.num 1] ∧
    (specCreate ["a"] JSValue.undefined (fun _ => Outcome.resolved 0 (JSValue.num 2))
      abstractInstantiate none 1).factoryArgs = some [JSValue.num 2] := by
  have h := nonsingleton_stateless_and_independent ["a"] JSValue.undefined
    (fun _ => Outcome.resolved 0 (JSValue.num 1))
    (fun _ => Outcome.resolved 0 (JSValue.num 2))
    abstractInstantiate 0 1 rfl
  exact ⟨rfl, rfl, h.1, (h.2.2.2.2.1 rfl).2, (h.2.2.2.2.2 rfl).2⟩

/-- C10: a singleton whose factory returns a falsy instance `v` has
`_instance` overwritten with `v` at settlement; on the next `create`
the truthiness fast-path check fails, so the call re-requests every
dependency, builds a fresh promise chain, and — when the new dependency
futures resolve — invokes the factory again instead of returning the
cached result. -/
theorem singleton_falsy_instance_recreates
    (deps : List String) (sing : JSValue)
    (c1 c2 : String → Outcome JSValue) (inst : Factory)
    (fresh f2 : Nat) (v : JSValue)
    (hs : jsTruthy sing = true) (hv : jsTruthy v = false)
    (h1 : allResolved (deps.map c1) = true)
    (hinst : inst (resolvedValues (deps.map c1)) = Except.ok v) :
    applySettle sing ((specCreate deps sing c1 inst none fresh).chain.getD Outcome.pending)
      (specCreate deps sing c1 inst none fresh).newInst = some (CachedVal.val v) ∧
    (specCreate deps sing c2 inst (some (CachedVal.val v)) f2).ret =
      CreateRet.newPromise f2 ∧
    (specCreate deps sing c2 inst (some (CachedVal.val v)) f2).requested = deps ∧
    (allResolved (deps.map c2) = true →
      (specCreate deps sing c2 inst (some (CachedVal.val v)) f2).factoryInvoked
        = true) := by
  refine ⟨?_, ?_, ?_, fun h2 => ?_⟩
  · simp [specCreate, specCreateRun, promiseAll_of_allResolved h1, chainOutcome,
      hinst, applySettle, hs]
  · simp [specCreate, specCreateRun, cachedTruthy, hv]
  · simp [specCreate, specCreateRun, cachedTruthy, hv]
  · simp [specCreate, specCreateRun, cachedTruthy, hv, promiseAll_of_allResolved h2]

/-- Witness for C10: a dependency-free singleton whose factory returns
the falsy instance `false`; the second call re-runs the chain and the
factory. -/
theorem singleton_falsy_instance_recreates_witness :
    jsTruthy (JSValue.bool true) = true ∧
    jsTruthy (JSValue.bool false) = false ∧
    allResolved (([] : List String).map (fun _ => Outcome.pending)) = true ∧
    (fun _ => Except.ok (JSValue.bool false) : Factory)
      (resolvedValues (([] : List String).map (fun _ => Outcome.pending))) =
      Except.ok (JSValue.bool false) ∧
    (specCreate [] (JSValue.bool true) (fun _ => Outcome.pending)
      (fun _ => Except.ok (JSValue.bool false))
      (some (CachedVal.val (JSValue.bool false))) 1).factoryInvoked = true := by
  have h := singleton_falsy_instance_recreates [] (JSValue.bool true)
    (fun _ => Outcome.pending) (fun _ => Outcome.pending)
    (fun _ => Except.ok (JSValue.bool false)) 0 1 (JSValue.bool false)
    rfl rfl rfl rfl
  exact ⟨rfl, rfl, rfl, rfl, h.2.2.2 rfl⟩

/-- C5 counterexample: once a dependency-free singleton's chain settles
to the truthy instance `"inst"`, the continuation stores the raw
instance in `_instance`, and the next `create` call returns that raw
value itself — not a future. -/
theorem create_settled_singleton_returns_raw_instance :
    applySettle (JSValue.bool true)
      ((specCreate [] (JSValue.bool true) (fun _ => Outcome.pending)
        (fun _ => Except.ok (JSValue.str "inst")) none 0).chain.getD Outcome.pending)
      (specCreate [] (JSValue.bool true) (fun _ => Outcome.pending)
        (fun _ => Except.ok (JSValue.str "inst")) none 0).newInst =
      some (CachedVal.val (JSValue.str "inst")) ∧
    isFuture (specCreate [] (JSValue.bool true) (fun _ => Outcome.pending)
      (fun _ => Except.ok (JSValue.str "inst"))
      (some (CachedVal.val (JSValue.str "inst"))) 1).ret = false :=
  ⟨rfl, rfl⟩

/-- C5 amended: every `create` call returns a future — except the fast
path of a Specification whose `_instance` already holds a settled
truthy instance, which returns that cached instance value itself
rather than a future of it. -/
theorem create_returns_future_or_settled_instance
    (deps : List String) (sing : JSValue) (container : String → Outcome JSValue)
    (inst : Factory) (st : Option CachedVal) (fresh : Nat) :
    isFuture (specCreate deps sing container inst st fresh).ret = true ∨
    (∃ v, st = some (CachedVal.val v) ∧ jsTruthy v = true ∧
      (specCreate deps sing container inst st fresh).ret =
        CreateRet.cached (CachedVal.val v)) := by
  cases st with
  | none => left; rfl
  | some c =>
    cases c with
    | prom pid => left; rfl
    | val v =>
      by_cases hv : jsTruthy v = true
      · right
        exact ⟨v, rfl, hv, by simp [specCreate, cachedTruthy, hv]⟩
      · left
        simp [specCreate, specCreateRun, cachedTruthy,
          Bool.not_eq_true _ ▸ hv, isFuture, retPid]

/-- C6 counterexample: constructing a Specification from a `null` (or
`undefined`) descriptor throws a `TypeError` at the first reserved-key
read, so construction does fail for those two descriptor values. -/
theorem specNew_null_descriptor_throws :
    specNew "x" JSValue.null =
      Except.error "TypeError: Cannot read property @require of null" ∧
    specNew "x" JSValue.undefined =
      Except.error "TypeError: Cannot read property @require of undefined" :=
  ⟨rfl, rfl⟩

/-- C6 amended: for every descriptor that is neither object- nor
function-shaped and is not `undefined` (nor `null`, whose `typeof` is
the object one) — that is, booleans, numbers and strings — construction
never fails, `annotations` is left empty, and dependencies, singleton
and implements take their defaults (`[]`, `undefined` which is falsy,
`[]`). -/
theorem specNew_primitive_defaults (id : String) (mod : JSValue)
    (ho : jsTypeof mod ≠ "object") (hf : jsTypeof mod ≠ "function")
    (hu : mod ≠ JSValue.undefined) :
    specNew id mod = Except.ok
      { id := id, dependencies := JSValue.arr [], singleton := JSValue.undefined,
        implements := JSValue.arr [], a := [] } := by
  cases mod with
  | undefined => exact absurd rfl hu
  | null => exact absurd rfl ho
  | bool b => rfl
  | num n => rfl
  | str s => rfl
  | arr xs => exact absurd rfl ho
  | obj fields => exact absurd rfl ho
  | func fields => exact absurd rfl hf

/-- Witness for C6 amended at the number descriptor `5`. -/
theorem specNew_primitive_defaults_witness :
    jsTypeof (JSValue.num 5) ≠ "object" ∧ jsTypeof (JSValue.num 5) ≠ "function" ∧
    JSValue.num 5 ≠ JSValue.undefined ∧
    specNew "w6" (JSValue.num 5) = Except.ok
      { id := "w6", dependencies := JSValue.arr [], singleton := JSValue.undefined,
        implements := JSValue.arr [], a := [] } :=
  ⟨by decide, by decide, fun h => JSValue.noConfusion h,
    specNew_primitive_defaults "w6" (JSValue.num 5) (by decide) (by decide)
      (fun h => JSValue.noConfusion h)⟩

/-- C7 counterexample: on a descriptor with the three reserved keys
absent, the constructed Specification's `singleton` field is the raw
`undefined` read from the descriptor, which is not the boolean `false`
the claim states (the other defaults do hold); and when the implements
reserved key holds the single string `""`, the falsy-default fallback
fires first, so `implements` is the empty collection rather than the
one-element collection the claim states. -/
theorem spec_singleton_default_is_undefined :
    (specNew "x" (JSValue.obj []) = Except.ok
      { id := "x", dependencies := JSValue.arr [], singleton := JSValue.undefined,
        implements := JSValue.arr [], a := [] } ∧
      JSValue.undefined ≠ JSValue.bool false) ∧
    (specNew "y" (JSValue.obj [("@implements", JSValue.str "")]) = Except.ok
      { id := "y", dependencies := JSValue.arr [], singleton := JSValue.undefined,
        implements := JSValue.arr [], a := [("@implements", JSValue.str "")] } ∧
      JSValue.arr [] ≠ JSValue.arr [JSValue.str ""]) :=
  ⟨⟨rfl, fun h => JSValue.noConfusion h⟩, ⟨rfl, by simp⟩⟩

/-- C7 amended: for every descriptor on which construction succeeds and
whose three reserved keys are absent (read as `undefined`), the
Specification has empty dependencies, `singleton` left as the falsy
`undefined` (not the boolean `false`), and empty implements; and
whenever the implements reserved key holds a single non-empty string,
`implements` is normalized to the one-element collection containing it
(the empty string is falsy and falls back to the empty default). -/
theorem spec_reserved_key_defaults (id : String) (mod : JSValue) (s : SpecRecord)
    (hok : specNew id mod = Except.ok s) :
    ((jsGet mod "@require" = Except.ok JSValue.undefined ∧
      jsGet mod "@singleton" = Except.ok JSValue.undefined ∧
      jsGet mod "@implements" = Except.ok JSValue.undefined) →
      s.dependencies = JSValue.arr [] ∧ s.singleton = JSValue.undefined ∧
        s.implements = JSValue.arr []) ∧
    (∀ t : String, t ≠ "" → jsGet mod "@implements" = Except.ok (JSValue.str t) →
      s.implements = JSValue.arr [JSValue.str t]) := by
  constructor
  · rintro ⟨h1, h2, h3⟩
    rw [specNew, h1, h2, h3] at hok
    simp only [jsOr, jsTruthy, jsTypeof] at hok
    simp at hok
    subst hok
    exact ⟨rfl, rfl, rfl⟩
  · intro t ht h3
    cases h1 : jsGet mod "@require" with
    | error e => rw [specNew, h1] at hok; exact Except.noConfusion hok
    | ok req =>
      cases h2 : jsGet mod "@singleton" with
      | error e => rw [specNew, h1, h2] at hok; exact Except.noConfusion hok
      | ok single =>
        rw [specNew, h1, h2, h3] at hok
        have htr : jsTruthy (JSValue.str t) = true := by
          simp [jsTruthy]; exact ht
        simp only [jsOr, htr, if_true, jsTypeof] at hok
        simp at hok
        subst hok
        rfl

/-- Witness for C7 amended: the empty-object descriptor exercises the
defaults; a descriptor carrying implements `"Foo"` exercises the
single-string normalization. -/
theorem spec_reserved_key_defaults_witness :
    specNew "x7" (JSValue.obj []) = Except.ok
      { id := "x7", dependencies := JSValue.arr [], singleton := JSValue.undefined,
        implements := JSValue.arr [], a := [] } ∧
    ({ id := "x7", dependencies := JSValue.arr [], singleton := JSValue.undefined,
        implements := JSValue.arr [], a := [] } : SpecRecord).dependencies =
      JSValue.arr [] ∧
    ({ id := "w7", dependencies := JSValue.arr [], singleton := JSValue.undefined,
        implements := JSValue.arr [JSValue.str "Foo"],
        a := [("@implements", JSValue.str "Foo")] } : SpecRecord).implements =
      JSValue.arr [JSValue.str "Foo"] :=
  ⟨rfl,
    ((spec_reserved_key_defaults "x7" (JSValue.obj [])
      { id := "x7", dependencies := JSValue.arr [], singleton := JSValue.undefined,
        implements := JSValue.arr [], a := [] } rfl).1 ⟨rfl, rfl, rfl⟩).1,
    (spec_reserved_key_defaults "w7"
      (JSValue.obj [("@implements", JSValue.str "Foo")])
      { id := "w7", dependencies := JSValue.arr [], singleton := JSValue.undefined,
        implements := JSValue.arr [JSValue.str "Foo"],
        a := [("@implements", JSValue.str "Foo")] } rfl).2 "Foo"
      (by decide) rfl⟩

/-! ## Lemmas about the annotation-copying loop -/

theorem jsAssocSet_append {acc : List (String × JSValue)} {k : String} {v : JSValue}
    (h : k ∉ acc.map Prod.fst) : jsAssocSet acc k v = acc ++ [(k, v)] := by
  induction acc with
  | nil => rfl
  | cons p rest ih =>
    obtain ⟨k0, v0⟩ := p
    simp only [List.map_cons, List.mem_cons, not_or] at h
    have hne : ¬ (k0 = k) := fun he => h.1 he.symm
    simp [jsAssocSet, hne, ih h.2]

theorem annotLoop_eq (mod : JSValue) :
    ∀ (ks : List String) (acc : List (String × JSValue)), ks.Nodup →
      (∀ k ∈ ks, k ∉ acc.map Prod.fst) →
      annotLoop mod ks acc =
        acc ++ (ks.filter (fun k => reservedKey k)).map (fun k => (k, jsGetD mod k)) := by
  intro ks
  induction ks with
  | nil => intro acc _ _; simp [annotLoop]
  | cons k ks ih =>
    intro acc hnd hdis
    by_cases hk : reservedKey k = true
    · have hstep : annotLoop mod (k :: ks) acc =
          annotLoop mod ks (jsAssocSet acc k (jsGetD mod k)) := by
        simp [annotLoop, hk]
      rw [hstep, jsAssocSet_append (hdis k (List.mem_cons_self k ks))]
      rw [ih (acc ++ [(k, jsGetD mod k)]) hnd.of_cons ?_]
      · simp [hk, List.filter_cons]
      · intro k2 hk2
        simp only [List.map_append, List.map_cons, List.map_nil, List.mem_append,
          List.mem_singleton, not_or]
        exact ⟨hdis k2 (List.mem_cons_of_mem k hk2),
          fun he => (List.nodup_cons.mp hnd).1 (he ▸ hk2)⟩
    · have hstep : annotLoop mod (k :: ks) acc = annotLoop mod ks acc := by
        simp [annotLoop, hk]
      rw [hstep, ih acc hnd.of_cons (fun k2 hk2 => hdis k2 (List.mem_cons_of_mem k hk2))]
      simp [List.filter_cons, hk]

theorem keysFilter_map_getOwn (p : String → Bool) :
    ∀ fields : List (String × JSValue), (fields.map Prod.fst).Nodup →
      ((fields.map Prod.fst).filter p).map (fun k => (k, jsGetOwn fields k)) =
        fields.filter (fun kv => p kv.1) := by
  intro fields
  induction fields with
  | nil => intro _; rfl
  | cons kv rest ih =>
    intro hnd
    obtain ⟨k0, v0⟩ := kv
    simp only [List.map_cons] at hnd
    have hk0 : k0 ∉ rest.map Prod.fst := (List.nodup_cons.mp hnd).1
    have hcong : ∀ k ∈ (rest.map Prod.fst).filter p,
        (fun k => (k, jsGetOwn ((k0, v0) :: rest) k)) k =
        (fun k => (k, jsGetOwn rest k)) k := by
      intro k hk
      have hkmem : k ∈ rest.map Prod.fst := List.mem_of_mem_filter hk
      have hne : ¬ (k0 = k) := fun he => hk0 (he ▸ hkmem)
      simp [jsGetOwn, hne]
    by_cases hp : p k0 = true
    · simp only [List.map_cons, List.filter_cons, hp, if_true, List.map_cons]
      rw [List.map_congr_left hcong, ih (List.nodup_cons.mp hnd).2]
      simp [jsGetOwn, List.filter_cons, hp]
    · have e1 : (k0 :: rest.map Prod.fst).filter p = (rest.map Prod.fst).filter p := by
        simp [List.filter_cons, hp]
      have e2 : ((k0, v0) :: rest).filter (fun kv => p kv.1) =
          rest.filter (fun kv => p kv.1) := by
        simp [List.filter_cons, hp]
      rw [List.map_cons, e1, e2, List.map_congr_left hcong,
        ih (List.nodup_cons.mp hnd).2]

/-- C8: for every object- or function-shaped descriptor (with the
distinct own keys every real JS object has), construction succeeds and
the `.a` hash is exactly the descriptor's reserved-prefixed entries,
copied verbatim in key order — so the three typed keys, when present,
appear in the annotations map as well as in the typed fields. -/
theorem annot_map_copies_reserved_keys (id : String) (mod : JSValue)
    (fields : List (String × JSValue))
    (hmod : mod = JSValue.obj fields ∨ mod = JSValue.func fields)
    (hnd : (fields.map Prod.fst).Nodup) :
    ∃ s, specNew id mod = Except.ok s ∧
      s.a = fields.filter (fun kv => reservedKey kv.1) ∧
      ∀ kv ∈ fields, reservedKey kv.1 = true → kv ∈ s.a := by
  have hb : buildAnnotMap mod = annotLoop mod (fields.map Prod.fst) [] := by
    cases hmod with
    | inl h => subst h; simp [buildAnnotMap, jsTypeof, jsKeys]
    | inr h => subst h; simp [buildAnnotMap, jsTypeof, jsKeys]
  have hget : ∀ k, jsGetD mod k = jsGetOwn fields k := by
    cases hmod with
    | inl h => subst h; intro k; rfl
    | inr h => subst h; intro k; rfl
  have hmain : buildAnnotMap mod = fields.filter (fun kv => reservedKey kv.1) := by
    rw [hb, annotLoop_eq mod (fields.map Prod.fst) [] hnd (by simp), List.nil_append]
    rw [List.map_congr_left (fun k _ => by rw [hget k])]
    exact keysFilter_map_getOwn (fun k => reservedKey k) fields hnd
  obtain ⟨s, hok, ha⟩ : ∃ s, specNew id mod = Except.ok s ∧ s.a = buildAnnotMap mod := by
    cases hmod with
    | inl h => subst h; exact ⟨_, rfl, rfl⟩
    | inr h => subst h; exact ⟨_, rfl, rfl⟩
  refine ⟨s, hok, ?_, ?_⟩
  · rw [ha, hmain]
  · intro kv hkv hres
    rw [ha, hmain]
    exact List.mem_filter.mpr ⟨hkv, hres⟩

/-- Witness for C8: the descriptor of the spec's annotation-extraction
scenario — dependencies `["a","b"]`, singleton `true`, implements
`"Foo"` and an extra reserved key — yields all four entries in `.a`. -/
theorem annot_map_copies_reserved_keys_witness :
    (([("@require", JSValue.arr [JSValue.str "a", JSValue.str "b"]),
       ("@singleton", JSValue.bool true),
       ("@implements", JSValue.str "Foo"),
       ("@extra", JSValue.str "x")] :
        List (String × JSValue)).map Prod.fst).Nodup ∧
    (∃ s, specNew "w8" (JSValue.obj
        [("@require", JSValue.arr [JSValue.str "a", JSValue.str "b"]),
         ("@singleton", JSValue.bool true),
         ("@implements", JSValue.str "Foo"),
         ("@extra", JSValue.str "x")]) = Except.ok s ∧
      s.a = ([("@require", JSValue.arr [JSValue.str "a", JSValue.str "b"]),
         ("@singleton", JSValue.bool true),
         ("@implements", JSValue.str "Foo"),
         ("@extra", JSValue.str "x")] :
          List (String × JSValue)).filter (fun kv => reservedKey kv.1) ∧
      ∀ kv ∈ ([("@require", JSValue.arr [JSValue.str "a", JSValue.str "b"]),
         ("@singleton", JSValue.bool true),
         ("@implements", JSValue.str "Foo"),
         ("@extra", JSValue.str "x")] : List (String × JSValue)),
        reservedKey kv.1 = true → kv ∈ s.a) :=
  ⟨by decide,
    annot_map_copies_reserved_keys "w8" _ _ (Or.inl rfl) (by decide)⟩
